import Mathlib

/-
Verification development for the async-class-co library (src/index.js).

The library rewrites the callable members of a JavaScript class (its static
surface and its prototype surface) so that selected members are replaced by
co.wrap adapters.  We give a shallow embedding of the member-table
manipulation (wrap, wrapStaticMethods, wrapInstanceMethods, getStaticMethods,
getInstanceMethods, validateMethodNames, wrapFunctions, getAllFunctions,
_actualMethodKeys) and, separately, a model of the adapter semantics that
co.wrap provides (an external dependency, modelled from the spec).

A Target models the own-property table of a JavaScript object, in enumeration
order, as returned by Object.getOwnPropertyNames: one entry per distinct key.
Inherited properties are not part of the table, mirroring the fact that the
source only ever enumerates and assigns own properties.
-/

namespace AsyncClassCo

/-- A function value as inspected by the library: either an original function
carrying its constructor-name tag (for example "GeneratorFunction" for
generator functions, "Function" for plain ones) and a numeric identity, or an
adapter produced by co.wrap around some function.  Adapters are ordinary
functions, so their constructor-name tag is "Function". -/
inductive Fn where
  | base (ctorName : String) (fnId : Nat) : Fn
  | coWrapped : Fn → Fn
deriving DecidableEq, Repr

/-- The constructor.name string the source reads on a function value. -/
def Fn.ctorName : Fn → String
  | .base c _ => c
  | .coWrapped _ => "Function"

/-- A JavaScript property value: a function or some non-function datum. -/
inductive Value where
  | func : Fn → Value
  | data : Nat → Value
deriving DecidableEq, Repr

/-- True when typeof value is function. -/
def Value.isFunc : Value → Bool
  | .func _ => true
  | .data _ => false

/-- The constructor.name the source reads via target[key].constructor.name.
Only ever read on function-typed values by the source. -/
def Value.ctorName : Value → String
  | .func f => f.ctorName
  | .data _ => ""

/-- An own-property descriptor: whether the property has a getter or a setter
(accessor = true), and its value. -/
structure PropDesc where
  accessor : Bool
  value : Value
deriving DecidableEq, Repr

/-- The suffix test key.endsWith of JavaScript, as a kernel-computable
function on the character lists of the two strings. -/
def strEndsWith (s t : String) : Bool := t.data.isSuffixOf s.data

/-- The own-property table of a JavaScript object, in enumeration order. -/
abbrev Target := List (String × PropDesc)

/-- Object.getOwnPropertyNames: the keys in enumeration order. -/
def getOwnPropertyNames (t : Target) : List String := t.map (fun e => e.1)

/-- Property read target[key]: first entry with the given key. -/
def getProp : Target → String → Option PropDesc
  | [], _ => none
  | (k2, p) :: rest, k => if k2 == k then some p else getProp rest k

/-- Property write target[key] = v: overwrite the value at the first entry
with the given key, keeping order and descriptor; if the key is absent a new
data property is appended (never reached by the library, which only assigns
keys it just enumerated). -/
def setProp : Target → String → Value → Target
  | [], k, v => [(k, { accessor := false, value := v })]
  | (k2, p) :: rest, k, v =>
    if k2 == k then (k2, { p with value := v }) :: rest
    else (k2, p) :: setProp rest k v

/-- Translation of _actualMethodKeys (src/index.js lines 124 to 131): own
property names, restricted first to those whose descriptor has neither a
getter nor a setter, then to those whose value is function-typed. -/
def _actualMethodKeys (t : Target) : List String :=
  ((getOwnPropertyNames t).filter (fun key =>
      match getProp t key with
      | some pd => !pd.accessor
      | none => false)).filter (fun key =>
      match getProp t key with
      | some pd => pd.value.isFunc
      | none => false)

/-- The value co.wrap(target[key]) stores back: a fresh adapter around the
function found there.  On the (unreachable) non-function branch the value is
kept unchanged. -/
def wrapValue : Value → Value
  | .func f => .func (.coWrapped f)
  | .data n => .data n

/-- One iteration of the forEach body of wrapFunctions (src/index.js lines
80 to 94) on the current state of the target: read the constructor name, apply
the selection rule (explicit name list when methodNames is present, otherwise
the Async suffix or the GeneratorFunction tag), and overwrite the selected
property with co.wrap of its current value.  The source has two identical
branches on the GeneratorFunction tag; both are kept. -/
def wrapStep (methodNames : Option (List String)) (tgt : Target) (key : String) : Target :=
  match getProp tgt key with
  | none => tgt
  | some pd =>
    let ctor := pd.value.ctorName
    let selected :=
      match methodNames with
      | some names => names.contains key
      | none => strEndsWith key ("Async") || ctor == "GeneratorFunction"
    if !selected then tgt
    else if pd.value.ctorName == "GeneratorFunction" then
      setProp tgt key (wrapValue pd.value)
    else
      setProp tgt key (wrapValue pd.value)

/-- Translation of wrapFunctions (src/index.js lines 79 to 95): the key list
is computed once from the incoming target, then each key is processed in
order against the successively mutated target. -/
def wrapFunctions (t : Target) (methodNames : Option (List String)) : Target :=
  (_actualMethodKeys t).foldl (wrapStep methodNames) t

/-- One iteration of the map body of getAllFunctions (src/index.js lines
100 to 120): with a methodNames list, membership is the sole criterion and
selected keys map to adapters; without one, the key constructor is skipped,
unmatched callables pass through as the original reference, and matched ones
map to adapters.  The two identical GeneratorFunction branches are kept. -/
def getStep (t : Target) (methodNames : Option (List String))
    (fns : List (String × Value)) (key : String) : List (String × Value) :=
  match getProp t key with
  | none => fns
  | some pd =>
    let ctor := pd.value.ctorName
    let isAsyncFunction := strEndsWith key ("Async") || ctor == "GeneratorFunction"
    match methodNames with
    | some names =>
      if !(names.contains key) then fns
      else if pd.value.ctorName == "GeneratorFunction" then fns ++ [(key, wrapValue pd.value)]
      else fns ++ [(key, wrapValue pd.value)]
    | none =>
      if key == "constructor" then fns
      else if !isAsyncFunction then fns ++ [(key, pd.value)]
      else if pd.value.ctorName == "GeneratorFunction" then fns ++ [(key, wrapValue pd.value)]
      else fns ++ [(key, wrapValue pd.value)]

/-- Translation of getAllFunctions (src/index.js lines 97 to 122): builds a
fresh mapping from the unmutated target. -/
def getAllFunctions (t : Target) (methodNames : Option (List String)) : List (String × Value) :=
  (_actualMethodKeys t).foldl (getStep t methodNames) []

/-- The optional methodNames argument as a JavaScript value: absent
(undefined), an array of strings, or any other value together with its
truthiness. -/
inductive JSArg where
  | absent
  | arr : List String → JSArg
  | other : Bool → JSArg
deriving DecidableEq, Repr

/-- JavaScript truthiness of the argument; arrays are always truthy. -/
def JSArg.truthy : JSArg → Bool
  | .absent => false
  | .arr _ => true
  | .other b => b

/-- The instanceof Array test of the source. -/
def JSArg.isArr : JSArg → Bool
  | .arr _ => true
  | .absent => false
  | .other _ => false

/-- How a validated argument reaches the branch if (methodNames) inside
wrapFunctions and getAllFunctions: an array takes the name-list branch, any
falsy value takes the convention branch.  Truthy non-arrays never get past
validateMethodNames, so they are mapped to the convention branch harmlessly. -/
def JSArg.toFilter : JSArg → Option (List String)
  | .arr names => some names
  | .absent => none
  | .other _ => none

/-- The error message thrown by validateMethodNames. -/
def methodNamesErr : String := "Optional methodNames should be an array if provided"

/-- Translation of validateMethodNames (src/index.js lines 73 to 77): throws
exactly when methodNames is truthy and not an instance of Array. -/
def validateMethodNames (m : JSArg) : Option String :=
  if m.truthy && !m.isArr then some methodNamesErr else none

/-- A class: its static surface (own properties of the class object) and its
instance surface (own properties of klass.prototype). -/
structure Klass where
  statics : Target
  proto : Target
deriving DecidableEq, Repr

/-- Translation of wrapStaticMethods (src/index.js lines 35 to 39).  The
result pairs the thrown error, if any, with the state of the class after the
call; a throw happens before wrapFunctions runs, so the state is unchanged. -/
def wrapStaticMethods (k : Klass) (m : JSArg) : Option String × Klass :=
  match validateMethodNames m with
  | some e => (some e, k)
  | none => (none, { k with statics := wrapFunctions k.statics m.toFilter })

/-- Translation of wrapInstanceMethods (src/index.js lines 57 to 61). -/
def wrapInstanceMethods (k : Klass) (m : JSArg) : Option String × Klass :=
  match validateMethodNames m with
  | some e => (some e, k)
  | none => (none, { k with proto := wrapFunctions k.proto m.toFilter })

/-- Translation of wrap (src/index.js lines 16 to 21): validate, wrap the
static surface, wrap the instance surface, return the class. -/
def wrap (k : Klass) (m : JSArg) : Option String × Klass :=
  match validateMethodNames m with
  | some e => (some e, k)
  | none =>
    match wrapStaticMethods k m with
    | (some e, k1) => (some e, k1)
    | (none, k1) => wrapInstanceMethods k1 m

/-- Translation of getStaticMethods (src/index.js lines 41 to 43): the
methodNames parameter of getAllFunctions is not passed, hence undefined. -/
def getStaticMethods (k : Klass) : List (String × Value) :=
  getAllFunctions k.statics none

/-- Translation of getInstanceMethods (src/index.js lines 63 to 65). -/
def getInstanceMethods (k : Klass) : List (String × Value) :=
  getAllFunctions k.proto none

/-
Semantic layer: the adapter contract provided by co.wrap.  co is an external
npm dependency whose code is not part of this repository, so the adapter is
modelled from the spec (sections 4.2 and 7): a deferred-result handle is an
Outcome, a suspend-style body is a step sequence that yields settled deferred
values and is resumed with their resolutions (or has the fault injected at the
suspension point on rejection), and a plain body either returns a value,
returns a deferred result, or throws synchronously.
-/

/-- Modelled from the spec: a settled deferred-result handle, holding either a
resolution value or a rejection fault. -/
inductive Outcome (ε : Type u) (α : Type v) where
  | resolved : α → Outcome ε α
  | rejected : ε → Outcome ε α
deriving DecidableEq, Repr

/-- Modelled from the spec: how a suspended step sequence is resumed: with the
resolved value of the deferred value it yielded, or by injecting the fault of
a rejected deferred value at the suspension point. -/
inductive Resume (ε : Type u) (α : Type v) where
  | next : α → Resume ε α
  | thrown : ε → Resume ε α
deriving DecidableEq, Repr

/-- Modelled from the spec: a suspend-style body as a step sequence: it either
completes with a final value, raises a fault, or yields a settled deferred
value and continues as a function of how it is resumed. -/
inductive GenBody (ε : Type u) (α : Type v) where
  | ret : α → GenBody ε α
  | raise : ε → GenBody ε α
  | yield : Outcome ε α → (Resume ε α → GenBody ε α) → GenBody ε α

/-- Modelled from the spec: the suspend-driving loop of the co.wrap adapter.
It resumes the sequence with the resolved value of each yielded deferred
value, injects rejections as thrown faults at the suspension point, and stops
at completion or at an uncaught fault.  Returns the final outcome together
with the list of resumptions performed, in order. -/
def driveGen : GenBody ε α → Outcome ε α × List (Resume ε α)
  | .ret v => (.resolved v, [])
  | .raise e => (.rejected e, [])
  | .yield (.resolved v) k =>
    let r := driveGen (k (.next v))
    (r.1, .next v :: r.2)
  | .yield (.rejected e) k =>
    let r := driveGen (k (.thrown e))
    (r.1, .thrown e :: r.2)

/-- Modelled from the spec: the result of invoking a plain body: a synchronous
return value, an already deferred result, or a synchronous throw. -/
inductive PlainResult (ε : Type u) (α : Type v) where
  | value : α → PlainResult ε α
  | deferred : Outcome ε α → PlainResult ε α
  | raise : ε → PlainResult ε α
deriving DecidableEq, Repr

/-- Modelled from the spec: the plain-callable path of the adapter: a
synchronous value resolves the handle, a returned deferred result is
forwarded, a synchronous throw rejects the handle. -/
def adaptPlain : PlainResult ε α → Outcome ε α
  | .value v => .resolved v
  | .deferred o => o
  | .raise e => .rejected e

/-- Modelled from the spec: a wrapped callable body as a function of its
argument list: plain or suspend-style. -/
inductive CallableBody (ε : Type u) (α : Type v) (β : Type w) where
  | plain : (β → PlainResult ε α) → CallableBody ε α β
  | suspend : (β → GenBody ε α) → CallableBody ε α β

/-- Modelled from the spec: invoking the adapted callable on an argument list.
The adapter always returns a deferred-result handle together with the list of
resumptions it performed; it has no synchronous-exception channel at all,
which embeds the guarantee that no exception escapes the adapter call site. -/
def adaptInvokeTr : CallableBody ε α β → β → Outcome ε α × List (Resume ε α)
  | .plain f, b => (adaptPlain (f b), [])
  | .suspend g, b => driveGen (g b)

/-- Modelled from the spec: the deferred-result handle returned by the
adapted callable. -/
def adaptInvoke (c : CallableBody ε α β) (b : β) : Outcome ε α :=
  (adaptInvokeTr c b).1

/-- The step sequence raises fault e when driven: either it raises at once,
or it yields and the resumed continuation raises. -/
inductive Raises : GenBody ε α → ε → Prop where
  | here (e : ε) : Raises (.raise e) e
  | stepRes (v : α) (k : Resume ε α → GenBody ε α) (e : ε) :
      Raises (k (.next v)) e → Raises (.yield (.resolved v) k) e
  | stepRej (f : ε) (k : Resume ε α → GenBody ε α) (e : ε) :
      Raises (k (.thrown f)) e → Raises (.yield (.rejected f) k) e

/-- The body of the wrapped callable raises fault e on argument list b:
synchronously for a plain body, during suspension-step resumption (or at
once) for a suspend-style body. -/
inductive BodyRaises : CallableBody ε α β → β → ε → Prop where
  | plain (f : β → PlainResult ε α) (b : β) (e : ε) :
      f b = .raise e → BodyRaises (.plain f) b e
  | suspend (g : β → GenBody ε α) (b : β) (e : ε) :
      Raises (g b) e → BodyRaises (.suspend g) b e

/-
Helper lemmas about the property-table operations.
-/

/-- The selection rule of wrapFunctions as a standalone predicate: explicit
name-list membership when methodNames is present, otherwise the Async naming
suffix or the GeneratorFunction constructor tag. -/
def selB (methodNames : Option (List String)) (key : String) (v : Value) : Bool :=
  match methodNames with
  | some names => names.contains key
  | none => strEndsWith key ("Async") || v.ctorName == "GeneratorFunction"

theorem getProp_setProp_self (t : Target) (k : String) (v : Value) (pd : PropDesc)
    (h : getProp t k = some pd) :
    getProp (setProp t k v) k = some { pd with value := v } := by
  induction t with
  | nil => simp [getProp] at h
  | cons e rest ih =>
    obtain ⟨k2, p⟩ := e
    by_cases hk : k2 = k
    · subst hk
      simp [getProp] at h
      simp [setProp, getProp, h]
    · simp [getProp, hk] at h
      simp [setProp, getProp, hk, ih h]

theorem getProp_setProp_ne (t : Target) (k q : String) (v : Value) (h : q ≠ k) :
    getProp (setProp t k v) q = getProp t q := by
  induction t with
  | nil => simp [setProp, getProp, Ne.symm h]
  | cons e rest ih =>
    obtain ⟨k2, p⟩ := e
    by_cases hk : k2 = k
    · subst hk
      have hq : ¬(k2 = q) := fun hh => h hh.symm
      simp [setProp, getProp, hq]
    · simp [setProp, getProp, hk]
      by_cases hq : k2 = q
      · simp [hq]
      · simp [hq, ih]

theorem mem_getOwnPropertyNames (t : Target) (q : String) :
    q ∈ getOwnPropertyNames t ↔ ∃ pd, getProp t q = some pd := by
  induction t with
  | nil => simp [getOwnPropertyNames, getProp]
  | cons e rest ih =>
    obtain ⟨k2, p⟩ := e
    by_cases hk : k2 = q
    · subst hk
      simp [getOwnPropertyNames, getProp]
    · simp [getOwnPropertyNames, getProp, hk, Ne.symm hk] at ih ⊢
      exact ih

theorem mem_actualMethodKeys (t : Target) (q : String) :
    q ∈ _actualMethodKeys t ↔
      ∃ pd, getProp t q = some pd ∧ pd.accessor = false ∧ pd.value.isFunc = true := by
  constructor
  · intro h
    simp only [_actualMethodKeys, List.mem_filter] at h
    obtain ⟨⟨hmem, hacc⟩, hfun⟩ := h
    obtain ⟨pd, hpd⟩ := (mem_getOwnPropertyNames t q).mp hmem
    refine ⟨pd, hpd, ?_, ?_⟩
    · rw [hpd] at hacc
      simpa using hacc
    · rw [hpd] at hfun
      simpa using hfun
  · rintro ⟨pd, hpd, hacc, hfun⟩
    simp only [_actualMethodKeys, List.mem_filter]
    refine ⟨⟨(mem_getOwnPropertyNames t q).mpr ⟨pd, hpd⟩, ?_⟩, ?_⟩
    · rw [hpd]
      simpa using hacc
    · rw [hpd]
      simpa using hfun

theorem actualMethodKeys_nodup (t : Target) (hnd : (getOwnPropertyNames t).Nodup) :
    (_actualMethodKeys t).Nodup :=
  List.Nodup.filter _ (List.Nodup.filter _ hnd)

theorem wrapStep_getProp_ne (mns : Option (List String)) (tgt : Target) (key q : String)
    (h : q ≠ key) : getProp (wrapStep mns tgt key) q = getProp tgt q := by
  unfold wrapStep
  cases hp : getProp tgt key with
  | none => rfl
  | some pd =>
    simp only []
    split
    · rfl
    · split <;> exact getProp_setProp_ne tgt key q _ h

theorem wrapStep_getProp_self (mns : Option (List String)) (tgt : Target) (key : String)
    (pd : PropDesc) (h : getProp tgt key = some pd) :
    getProp (wrapStep mns tgt key) key =
      some (if selB mns key pd.value then { pd with value := wrapValue pd.value } else pd) := by
  have hset := getProp_setProp_self tgt key (wrapValue pd.value) pd h
  unfold wrapStep
  rw [h]
  cases mns with
  | none =>
    by_cases hs : (strEndsWith key ("Async") || pd.value.ctorName == "GeneratorFunction") = true
    · simp [selB, hs, hset]
    · have hs2 : (strEndsWith key ("Async") || pd.value.ctorName == "GeneratorFunction") = false := by
        simpa using hs
      simp [selB, hs2, h]
  | some names =>
    by_cases hs : key ∈ names
    · simp [selB, hs, hset]
    · simp [selB, hs, h]

theorem getProp_foldl_wrapStep (mns : Option (List String)) :
    ∀ (ks : List String) (acc : Target) (q : String), ks.Nodup →
    getProp (ks.foldl (wrapStep mns) acc) q =
      if q ∈ ks then
        (match getProp acc q with
         | none => none
         | some pd =>
           some (if selB mns q pd.value then { pd with value := wrapValue pd.value } else pd))
      else getProp acc q := by
  intro ks
  induction ks with
  | nil =>
    intro acc q _
    simp
  | cons k rest ih =>
    intro acc q hnd
    have hndr : rest.Nodup := hnd.of_cons
    have hknr : k ∉ rest := by
      intro hmem
      exact (List.nodup_cons.mp hnd).1 hmem
    rw [List.foldl_cons]
    by_cases hq : q = k
    · subst hq
      rw [ih (wrapStep mns acc q) q hndr, if_neg hknr, if_pos (List.mem_cons_self q rest)]
      cases hp : getProp acc q with
      | none =>
        simp [wrapStep, hp]
      | some pd =>
        rw [wrapStep_getProp_self mns acc q pd hp]
    · rw [ih (wrapStep mns acc k) q hndr, wrapStep_getProp_ne mns acc k q hq]
      by_cases hmem : q ∈ rest
      · rw [if_pos hmem, if_pos (List.mem_cons_of_mem k hmem)]
      · rw [if_neg hmem, if_neg (by simp [hq, hmem])]

/-- Pointwise characterization of wrapFunctions on a property table with
distinct keys: a property is overwritten with a fresh co.wrap adapter exactly
when it is an own non-accessor function-typed property selected by the rule;
every other property keeps its exact previous descriptor. -/
theorem getProp_wrapFunctions (t : Target) (hnd : (getOwnPropertyNames t).Nodup)
    (mns : Option (List String)) (q : String) :
    getProp (wrapFunctions t mns) q =
      match getProp t q with
      | none => none
      | some pd =>
        some (if (!pd.accessor && pd.value.isFunc && selB mns q pd.value) = true
          then { pd with value := wrapValue pd.value } else pd) := by
  unfold wrapFunctions
  rw [getProp_foldl_wrapStep mns (_actualMethodKeys t) t q (actualMethodKeys_nodup t hnd)]
  by_cases hmem : q ∈ _actualMethodKeys t
  · rw [if_pos hmem]
    obtain ⟨pd, hpd, hacc, hfun⟩ := (mem_actualMethodKeys t q).mp hmem
    rw [hpd]
    simp [hacc, hfun]
  · rw [if_neg hmem]
    cases hpd : getProp t q with
    | none => rfl
    | some pd =>
      have hfalse : (!pd.accessor && pd.value.isFunc) = false := by
        by_contra hb
        have hb2 : (!pd.accessor && pd.value.isFunc) = true := by
          simpa using hb
        simp only [Bool.and_eq_true, Bool.not_eq_true'] at hb2
        exact hmem ((mem_actualMethodKeys t q).mpr ⟨pd, hpd, hb2.1, hb2.2⟩)
      simp [hfalse]

/-- First-match lookup in the mapping returned by the get family. -/
def findVal : List (String × Value) → String → Option Value
  | [], _ => none
  | (k2, v) :: rest, k => if k2 == k then some v else findVal rest k

/-- What getAllFunctions associates to a candidate key, as a standalone
description: with a name list, membership alone decides and selected keys map
to adapters; without one, the key constructor is dropped, unmatched keys keep
the original function value, matched keys map to adapters. -/
def getAllSpec (methodNames : Option (List String)) (key : String) (v : Value) : Option Value :=
  match methodNames with
  | some names => if names.contains key then some (wrapValue v) else none
  | none =>
    if key == "constructor" then none
    else if !(strEndsWith key ("Async") || v.ctorName == "GeneratorFunction") then some v
    else some (wrapValue v)

theorem findVal_append (xs ys : List (String × Value)) (q : String) :
    findVal (xs ++ ys) q =
      match findVal xs q with
      | some v => some v
      | none => findVal ys q := by
  induction xs with
  | nil => simp [findVal]
  | cons e rest ih =>
    obtain ⟨k2, v⟩ := e
    by_cases hk : k2 = q <;> simp [findVal, hk, ih]

theorem findVal_eq_none (l : List (String × Value)) (q : String)
    (h : ∀ e ∈ l, e.1 ≠ q) : findVal l q = none := by
  induction l with
  | nil => rfl
  | cons e rest ih =>
    obtain ⟨k2, v⟩ := e
    have h1 : (k2 == q) = false := by
      simpa using h (k2, v) (List.mem_cons_self _ _)
    simp only [findVal, h1, Bool.false_eq_true, if_false]
    exact ih fun e he => h e (List.mem_cons_of_mem _ he)

theorem getStep_keys (t : Target) (mns : Option (List String)) (key : String) :
    ∀ e ∈ getStep t mns [] key, e.1 = key := by
  intro e he
  unfold getStep at he
  cases hp : getProp t key with
  | none =>
    rw [hp] at he
    simp at he
  | some pd =>
    rw [hp] at he
    cases mns with
    | some names =>
      by_cases hc : key ∈ names
      <;> by_cases hg : pd.value.ctorName = "GeneratorFunction"
      <;> simp_all
    | none =>
      by_cases hcon : key = "constructor"
      <;> by_cases ha : strEndsWith key ("Async") = true
      <;> by_cases hg : pd.value.ctorName = "GeneratorFunction"
      <;> simp_all

theorem findVal_getStep_ne (t : Target) (mns : Option (List String)) (key q : String)
    (h : q ≠ key) : findVal (getStep t mns [] key) q = none :=
  findVal_eq_none _ _ fun e he => by
    rw [getStep_keys t mns key e he]
    exact Ne.symm h

theorem getStep_append (t : Target) (mns : Option (List String))
    (fns : List (String × Value)) (key : String) :
    getStep t mns fns key = fns ++ getStep t mns [] key := by
  unfold getStep
  cases hp : getProp t key with
  | none => simp
  | some pd =>
    cases mns with
    | some names =>
      by_cases hc : key ∈ names
      <;> by_cases hg : pd.value.ctorName = "GeneratorFunction"
      <;> simp [hc, hg]
    | none =>
      by_cases hcon : key = "constructor"
      <;> by_cases ha : strEndsWith key ("Async") = true
      <;> by_cases hg : pd.value.ctorName = "GeneratorFunction"
      <;> simp [hcon, ha, hg]

theorem foldl_getStep_append (t : Target) (mns : Option (List String)) :
    ∀ (ks : List String) (fns : List (String × Value)),
    ks.foldl (getStep t mns) fns = fns ++ ks.foldl (getStep t mns) [] := by
  intro ks
  induction ks with
  | nil =>
    intro fns
    simp
  | cons k rest ih =>
    intro fns
    rw [List.foldl_cons, List.foldl_cons, ih (getStep t mns fns k), ih (getStep t mns [] k),
        getStep_append t mns fns k, List.append_assoc]

theorem findVal_getStep_self (t : Target) (mns : Option (List String)) (q : String)
    (pd : PropDesc) (h : getProp t q = some pd) :
    findVal (getStep t mns [] q) q = getAllSpec mns q pd.value := by
  unfold getStep getAllSpec
  rw [h]
  cases mns with
  | some names =>
    by_cases hc : q ∈ names
    <;> by_cases hg : pd.value.ctorName = "GeneratorFunction"
    <;> simp [hc, hg, findVal]
  | none =>
    by_cases hcon : q = "constructor"
    <;> by_cases ha : strEndsWith q ("Async") = true
    <;> by_cases hg : pd.value.ctorName = "GeneratorFunction"
    <;> simp [hcon, ha, hg, findVal]

theorem findVal_foldl_getStep (t : Target) (mns : Option (List String)) :
    ∀ (ks : List String) (q : String), ks.Nodup →
    findVal (ks.foldl (getStep t mns) []) q =
      if q ∈ ks then findVal (getStep t mns [] q) q else none := by
  intro ks
  induction ks with
  | nil =>
    intro q _
    simp [findVal]
  | cons k rest ih =>
    intro q hnd
    rw [List.foldl_cons, foldl_getStep_append t mns rest (getStep t mns [] k), findVal_append]
    by_cases hq : q = k
    · subst hq
      have hknr : q ∉ rest := (List.nodup_cons.mp hnd).1
      rw [ih q hnd.of_cons, if_neg hknr, if_pos (List.mem_cons_self q rest)]
      cases hf : findVal (getStep t mns [] q) q <;> simp [hf]
    · rw [findVal_getStep_ne t mns k q hq, ih q hnd.of_cons]
      by_cases hm : q ∈ rest
      · rw [if_pos hm, if_pos (List.mem_cons_of_mem k hm)]
      · rw [if_neg hm, if_neg (by simp [hq, hm])]

/-- Pointwise characterization of getAllFunctions on a property table with
distinct keys: the returned mapping associates to each own non-accessor
function-typed key exactly the value described by getAllSpec, and contains
nothing else. -/
theorem findVal_getAllFunctions (t : Target) (hnd : (getOwnPropertyNames t).Nodup)
    (mns : Option (List String)) (q : String) :
    findVal (getAllFunctions t mns) q =
      match getProp t q with
      | none => none
      | some pd =>
        if (!pd.accessor && pd.value.isFunc) = true then getAllSpec mns q pd.value else none := by
  unfold getAllFunctions
  rw [findVal_foldl_getStep t mns (_actualMethodKeys t) q (actualMethodKeys_nodup t hnd)]
  by_cases hmem : q ∈ _actualMethodKeys t
  · rw [if_pos hmem]
    obtain ⟨pd, hpd, hacc, hfun⟩ := (mem_actualMethodKeys t q).mp hmem
    rw [findVal_getStep_self t mns q pd hpd, hpd]
    simp [hacc, hfun]
  · rw [if_neg hmem]
    cases hpd : getProp t q with
    | none => rfl
    | some pd =>
      have hfalse : (!pd.accessor && pd.value.isFunc) = false := by
        by_contra hb
        have hb2 : (!pd.accessor && pd.value.isFunc) = true := by
          simpa using hb
        simp only [Bool.and_eq_true, Bool.not_eq_true'] at hb2
        exact hmem ((mem_actualMethodKeys t q).mpr ⟨pd, hpd, hb2.1, hb2.2⟩)
      simp [hfalse]

/-- A co.wrap adapter is a fresh function, never identity-equal to the
function it wraps. -/
theorem coWrapped_ne (f : Fn) : Fn.coWrapped f ≠ f := by
  induction f with
  | base c n => simp
  | coWrapped g ih =>
    intro h
    injection h with h2
    exact ih h2

/-- Modelled from the spec: the simplified variant of the wrapFunctions loop
body in which the duplicated GeneratorFunction branch is collapsed into a
single uniform wrapping call applied to every selected callable. -/
def wrapStepUniform (methodNames : Option (List String)) (tgt : Target) (key : String) : Target :=
  match getProp tgt key with
  | none => tgt
  | some pd =>
    let ctor := pd.value.ctorName
    let selected :=
      match methodNames with
      | some names => names.contains key
      | none => strEndsWith key ("Async") || ctor == "GeneratorFunction"
    if !selected then tgt
    else setProp tgt key (wrapValue pd.value)

/-- Modelled from the spec: wrapFunctions with the single uniform wrapping
call. -/
def wrapFunctionsUniform (t : Target) (methodNames : Option (List String)) : Target :=
  (_actualMethodKeys t).foldl (wrapStepUniform methodNames) t

/-- Modelled from the spec: the simplified variant of the getAllFunctions loop
body with the duplicated GeneratorFunction branch collapsed. -/
def getStepUniform (t : Target) (methodNames : Option (List String))
    (fns : List (String × Value)) (key : String) : List (String × Value) :=
  match getProp t key with
  | none => fns
  | some pd =>
    let ctor := pd.value.ctorName
    let isAsyncFunction := strEndsWith key ("Async") || ctor == "GeneratorFunction"
    match methodNames with
    | some names =>
      if !(names.contains key) then fns
      else fns ++ [(key, wrapValue pd.value)]
    | none =>
      if key == "constructor" then fns
      else if !isAsyncFunction then fns ++ [(key, pd.value)]
      else fns ++ [(key, wrapValue pd.value)]

/-- Modelled from the spec: getAllFunctions with the single uniform wrapping
call. -/
def getAllFunctionsUniform (t : Target) (methodNames : Option (List String)) :
    List (String × Value) :=
  (_actualMethodKeys t).foldl (getStepUniform t methodNames) []

theorem wrapStep_eq_uniform (mns : Option (List String)) (tgt : Target) (key : String) :
    wrapStep mns tgt key = wrapStepUniform mns tgt key := by
  unfold wrapStep wrapStepUniform
  cases getProp tgt key with
  | none => rfl
  | some pd =>
    cases mns with
    | some names =>
      by_cases hc : key ∈ names
      <;> by_cases hg : pd.value.ctorName = "GeneratorFunction"
      <;> simp [hc, hg]
    | none =>
      by_cases ha : strEndsWith key ("Async") = true
      <;> by_cases hg : pd.value.ctorName = "GeneratorFunction"
      <;> simp [ha, hg]

theorem getStep_eq_uniform (t : Target) (mns : Option (List String))
    (fns : List (String × Value)) (key : String) :
    getStep t mns fns key = getStepUniform t mns fns key := by
  unfold getStep getStepUniform
  cases getProp t key with
  | none => rfl
  | some pd =>
    cases mns with
    | some names =>
      by_cases hc : key ∈ names
      <;> by_cases hg : pd.value.ctorName = "GeneratorFunction"
      <;> simp [hc, hg]
    | none =>
      by_cases hcon : key = "constructor"
      <;> by_cases ha : strEndsWith key ("Async") = true
      <;> by_cases hg : pd.value.ctorName = "GeneratorFunction"
      <;> simp [hcon, ha, hg]

theorem wrapStep_empty_names (tgt : Target) (key : String) :
    wrapStep (some []) tgt key = tgt := by
  unfold wrapStep
  cases getProp tgt key with
  | none => rfl
  | some pd => simp

theorem foldl_wrapStep_empty_names :
    ∀ (ks : List String) (acc : Target), ks.foldl (wrapStep (some [])) acc = acc := by
  intro ks
  induction ks with
  | nil =>
    intro acc
    rfl
  | cons k rest ih =>
    intro acc
    rw [List.foldl_cons, wrapStep_empty_names acc k]
    exact ih acc

theorem wrapFunctions_empty_names (t : Target) : wrapFunctions t (some []) = t :=
  foldl_wrapStep_empty_names (_actualMethodKeys t) t

theorem mem_foldl_getStep (t : Target) (mns : Option (List String)) :
    ∀ (ks : List String) (e : String × Value), e ∈ ks.foldl (getStep t mns) [] →
      ∃ k ∈ ks, e ∈ getStep t mns [] k := by
  intro ks
  induction ks with
  | nil =>
    intro e he
    simp at he
  | cons k rest ih =>
    intro e he
    rw [List.foldl_cons, foldl_getStep_append t mns rest (getStep t mns [] k)] at he
    rcases List.mem_append.mp he with h1 | h2
    · exact ⟨k, List.mem_cons_self k rest, h1⟩
    · obtain ⟨k2, hk2, he2⟩ := ih e h2
      exact ⟨k2, List.mem_cons_of_mem _ hk2, he2⟩

/-- Without a name filter, the mapping built by getAllFunctions never
contains a constructor entry. -/
theorem getAllFunctions_no_constructor (t : Target) :
    findVal (getAllFunctions t none) ("constructor") = none := by
  apply findVal_eq_none
  intro e he
  obtain ⟨k, _, he2⟩ := mem_foldl_getStep t none (_actualMethodKeys t) e he
  have hkey := getStep_keys t none k e he2
  intro hcon
  have hk2 : k = "constructor" := by
    rw [← hkey, hcon]
  subst hk2
  unfold getStep at he2
  cases hp : getProp t ("constructor") with
  | none =>
    rw [hp] at he2
    simp at he2
  | some pd =>
    rw [hp] at he2
    simp at he2

/-- Driving a step sequence that raises a fault yields a rejected outcome
with exactly that fault. -/
theorem driveGen_raises {ε : Type u} {α : Type v} (g : GenBody ε α) (e : ε)
    (h : Raises g e) : (driveGen g).1 = Outcome.rejected e := by
  induction h with
  | here e => rfl
  | stepRes v k e hr ih => simp [driveGen, ih]
  | stepRej f k e hr ih => simp [driveGen, ih]

/-
The claim theorems.
-/

/-- C1: if the body of a wrapped callable (plain or suspend-style) raises a
fault E on some argument list, synchronously or during suspension-step
resumption, then invoking the adapted callable yields a deferred-result
handle rejected with E.  The adapter adaptInvoke is a total function into
Outcome, with no synchronous-exception channel, so no exception can escape
the adapter call site in this model.  co.wrap is an external dependency, so
the adapter is modelled from the spec. -/
theorem c1_invocation_fault_rejects {ε : Type u} {α : Type v} {β : Type w}
    (c : CallableBody ε α β) (b : β) (e : ε) (h : BodyRaises c b e) :
    adaptInvoke c b = Outcome.rejected e := by
  cases h with
  | plain f b e hf => simp [adaptInvoke, adaptInvokeTr, hf, adaptPlain]
  | suspend g b e hg =>
    simp only [adaptInvoke, adaptInvokeTr]
    exact driveGen_raises (g b) e hg

/-- Witness for C1: a concrete suspend-style callable that raises fault 7
after one resumption rejects with 7, and a concrete plain callable that
throws fault 5 synchronously rejects with 5. -/
theorem c1_witness :
    adaptInvoke (CallableBody.suspend (fun (_ : Nat) =>
        GenBody.yield (Outcome.resolved 1) (fun _ => GenBody.raise 7))) 0
      = Outcome.rejected 7
    ∧ adaptInvoke (CallableBody.plain (fun (_ : Nat) =>
        PlainResult.raise (ε := Nat) (α := Nat) 5)) 0
      = Outcome.rejected 5 :=
  ⟨c1_invocation_fault_rejects _ 0 7
      (BodyRaises.suspend _ 0 7 (Raises.stepRes 1 _ 7 (Raises.here 7))),
    c1_invocation_fault_rejects _ 0 5
      (BodyRaises.plain _ 0 5 rfl)⟩

/-- C6: a suspend-style callable whose step sequence yields settled deferred
values resolving to v1 and then v2 and finally returns v3 is adapted to a
callable whose deferred result resolves to v3, the sequence having been
resumed exactly twice, first with v1 and then with v2.  co.wrap is an
external dependency, so the adapter is modelled from the spec. -/
theorem c6_two_step_resolution {ε : Type u} {α : Type v} {β : Type w}
    (g : β → GenBody ε α) (b : β) (v1 v2 v3 : α)
    (k1 k2 : Resume ε α → GenBody ε α)
    (h0 : g b = GenBody.yield (Outcome.resolved v1) k1)
    (h1 : k1 (Resume.next v1) = GenBody.yield (Outcome.resolved v2) k2)
    (h2 : k2 (Resume.next v2) = GenBody.ret v3) :
    adaptInvokeTr (CallableBody.suspend g) b
      = (Outcome.resolved v3, [Resume.next v1, Resume.next v2]) := by
  simp only [adaptInvokeTr]
  rw [h0]
  simp only [driveGen]
  rw [h1]
  simp only [driveGen]
  rw [h2]
  simp [driveGen]

/-- Witness for C6 at a concrete two-yield step sequence over Nat. -/
theorem c6_witness :
    adaptInvokeTr (CallableBody.suspend (fun (_ : Nat) =>
        GenBody.yield (Outcome.resolved (10 : Nat)) (fun _ =>
          GenBody.yield (Outcome.resolved (20 : Nat)) (fun _ =>
            GenBody.ret (99 : Nat))))) (0 : Nat)
      = (Outcome.resolved (99 : Nat),
          [Resume.next (ε := Nat) 10, Resume.next 20]) :=
  c6_two_step_resolution _ 0 10 20 99 _ _ rfl rfl rfl

/-- Unfiltered wrapFunctions leaves a constructor property untouched as long
as its value is not itself tagged as a generator function: the name lacks the
Async suffix and the tag fails the GeneratorFunction test. -/
theorem wrapFunctions_keeps_plain_ctor (t : Target)
    (hnd : (getOwnPropertyNames t).Nodup) (pd : PropDesc)
    (hpd : getProp t ("constructor") = some pd)
    (hg : pd.value.ctorName ≠ "GeneratorFunction") :
    getProp (wrapFunctions t none) ("constructor") = some pd := by
  rw [getProp_wrapFunctions t hnd none ("constructor"), hpd]
  have he : strEndsWith ("constructor") ("Async") = false := by decide
  have hc : (pd.value.ctorName == "GeneratorFunction") = false := by
    simpa using hg
  have hsel : selB none ("constructor") pd.value = false := by
    simp [selB, he, hc]
  simp [hsel]

/-- Counterexample to C2 as stated: with a methodNames filter containing the
name constructor, every operation of the wrap family replaces a constructor
property with a fresh adapter: wrapInstanceMethods and wrap replace the
prototype constructor, and wrapStaticMethods and wrap replace a static own
property named constructor; afterwards the property is not identity-equal to
its previous value.  The source wrapFunctions has no constructor exclusion at
all; only the unfiltered branch of getAllFunctions has one. -/
theorem c2_counterexample :
    getProp (wrapInstanceMethods
        { statics := [("constructor",
            { accessor := false, value := Value.func (Fn.base ("Function") 1) })],
          proto := [("constructor",
            { accessor := false, value := Value.func (Fn.base ("Function") 0) })] }
        (JSArg.arr ["constructor"])).2.proto ("constructor")
      = some { accessor := false,
               value := Value.func (Fn.coWrapped (Fn.base ("Function") 0)) }
    ∧ getProp (wrap
        { statics := [("constructor",
            { accessor := false, value := Value.func (Fn.base ("Function") 1) })],
          proto := [("constructor",
            { accessor := false, value := Value.func (Fn.base ("Function") 0) })] }
        (JSArg.arr ["constructor"])).2.proto ("constructor")
      = some { accessor := false,
               value := Value.func (Fn.coWrapped (Fn.base ("Function") 0)) }
    ∧ getProp (wrapStaticMethods
        { statics := [("constructor",
            { accessor := false, value := Value.func (Fn.base ("Function") 1) })],
          proto := [("constructor",
            { accessor := false, value := Value.func (Fn.base ("Function") 0) })] }
        (JSArg.arr ["constructor"])).2.statics ("constructor")
      = some { accessor := false,
               value := Value.func (Fn.coWrapped (Fn.base ("Function") 1)) }
    ∧ getProp (wrap
        { statics := [("constructor",
            { accessor := false, value := Value.func (Fn.base ("Function") 1) })],
          proto := [("constructor",
            { accessor := false, value := Value.func (Fn.base ("Function") 0) })] }
        (JSArg.arr ["constructor"])).2.statics ("constructor")
      = some { accessor := false,
               value := Value.func (Fn.coWrapped (Fn.base ("Function") 1)) }
    ∧ Value.func (Fn.coWrapped (Fn.base ("Function") 0))
      ≠ Value.func (Fn.base ("Function") 0)
    ∧ Value.func (Fn.coWrapped (Fn.base ("Function") 1))
      ≠ Value.func (Fn.base ("Function") 1) := by
  refine ⟨by decide, by decide, by decide, by decide, by decide, by decide⟩

/-- C2 amended: when no methodNames filter is supplied, no operation of the
wrap family replaces a constructor property whose value is not itself tagged
as a generator function (true of every real class prototype, whose
constructor is a plain function): wrap and wrapInstanceMethods preserve the
prototype constructor identity-equal, and wrap and wrapStaticMethods likewise
preserve a static own property named constructor; getStaticMethods and
getInstanceMethods, which always run unfiltered, never list a constructor
key.  An explicit filter containing the name constructor defeats this for
every wrap-family operation, as the counterexample shows. -/
theorem c2_constructor_amended (k : Klass)
    (hnds : (getOwnPropertyNames k.statics).Nodup)
    (hndp : (getOwnPropertyNames k.proto).Nodup) :
    (∀ pd, getProp k.proto ("constructor") = some pd →
      pd.value.ctorName ≠ "GeneratorFunction" →
      getProp (wrapInstanceMethods k JSArg.absent).2.proto ("constructor") = some pd
      ∧ getProp (wrap k JSArg.absent).2.proto ("constructor") = some pd)
    ∧ (∀ pd, getProp k.statics ("constructor") = some pd →
      pd.value.ctorName ≠ "GeneratorFunction" →
      getProp (wrapStaticMethods k JSArg.absent).2.statics ("constructor") = some pd
      ∧ getProp (wrap k JSArg.absent).2.statics ("constructor") = some pd)
    ∧ findVal (getInstanceMethods k) ("constructor") = none
    ∧ findVal (getStaticMethods k) ("constructor") = none := by
  have hwp : (wrapInstanceMethods k JSArg.absent).2.proto = wrapFunctions k.proto none := rfl
  have hws : (wrapStaticMethods k JSArg.absent).2.statics = wrapFunctions k.statics none := rfl
  have hwa : (wrap k JSArg.absent).2
      = { statics := wrapFunctions k.statics none, proto := wrapFunctions k.proto none } := rfl
  refine ⟨?_, ?_, getAllFunctions_no_constructor k.proto, getAllFunctions_no_constructor k.statics⟩
  · intro pd hpd hg
    have h := wrapFunctions_keeps_plain_ctor k.proto hndp pd hpd hg
    constructor
    · rw [hwp]
      exact h
    · rw [hwa]
      exact h
  · intro pd hpd hg
    have h := wrapFunctions_keeps_plain_ctor k.statics hnds pd hpd hg
    constructor
    · rw [hws]
      exact h
    · rw [hwa]
      exact h

/-- Witness for the amended C2 at a concrete class with a plain constructor
property on each surface and one generator method: wrap preserves both
constructors and both mappings omit the key. -/
theorem c2_witness :
    getProp (wrap
        { statics := [("constructor",
            { accessor := false, value := Value.func (Fn.base ("Function") 5) })],
          proto := [("constructor",
              { accessor := false, value := Value.func (Fn.base ("Function") 3) }),
            ("load",
              { accessor := false, value := Value.func (Fn.base ("GeneratorFunction") 4) })] }
        JSArg.absent).2.proto ("constructor")
      = some { accessor := false, value := Value.func (Fn.base ("Function") 3) }
    ∧ getProp (wrap
        { statics := [("constructor",
            { accessor := false, value := Value.func (Fn.base ("Function") 5) })],
          proto := [("constructor",
              { accessor := false, value := Value.func (Fn.base ("Function") 3) }),
            ("load",
              { accessor := false, value := Value.func (Fn.base ("GeneratorFunction") 4) })] }
        JSArg.absent).2.statics ("constructor")
      = some { accessor := false, value := Value.func (Fn.base ("Function") 5) } := by
  have h := c2_constructor_amended
    { statics := [("constructor",
        { accessor := false, value := Value.func (Fn.base ("Function") 5) })],
      proto := [("constructor",
          { accessor := false, value := Value.func (Fn.base ("Function") 3) }),
        ("load",
          { accessor := false, value := Value.func (Fn.base ("GeneratorFunction") 4) })] }
    (by decide) (by decide)
  exact ⟨(h.1 { accessor := false, value := Value.func (Fn.base ("Function") 3) }
      (by decide) (by decide)).2,
    (h.2.1 { accessor := false, value := Value.func (Fn.base ("Function") 5) }
      (by decide) (by decide)).2⟩

/-- Counterexample to C3 as stated: the JavaScript value false is supplied
(it is not absent) and is not an array, yet wrap raises no error, because
validateMethodNames tests truthiness rather than presence. -/
theorem c3_counterexample :
    (wrap { statics := [], proto := [] } (JSArg.other false)).1 = none
    ∧ JSArg.other false ≠ JSArg.absent
    ∧ (JSArg.other false).isArr = false := by
  refine ⟨rfl, by decide, rfl⟩

/-- C3 amended: wrap, wrapStaticMethods and wrapInstanceMethods raise the
InvalidArgument error exactly when the methodNames argument is truthy and not
an array (a supplied falsy non-array such as false or 0 is accepted silently
and treated like an absent filter); when the error is raised, the class is
returned in its unmutated state, since validation precedes all wrapping. -/
theorem c3_validation_amended (k : Klass) (m : JSArg) :
    ((m.truthy && !m.isArr) = true →
      wrap k m = (some methodNamesErr, k)
      ∧ wrapStaticMethods k m = (some methodNamesErr, k)
      ∧ wrapInstanceMethods k m = (some methodNamesErr, k))
    ∧ ((m.truthy && !m.isArr) = false →
      (wrap k m).1 = none
      ∧ (wrapStaticMethods k m).1 = none
      ∧ (wrapInstanceMethods k m).1 = none) := by
  constructor
  · intro h
    have hv : validateMethodNames m = some methodNamesErr := by
      simp [validateMethodNames, h]
    exact ⟨by simp [wrap, hv], by simp [wrapStaticMethods, hv], by simp [wrapInstanceMethods, hv]⟩
  · intro h
    have hv : validateMethodNames m = none := by
      simp [validateMethodNames, h]
    refine ⟨?_, by simp [wrapStaticMethods, hv], by simp [wrapInstanceMethods, hv]⟩
    simp [wrap, hv, wrapStaticMethods, wrapInstanceMethods]

/-- Witness for the amended C3 at a concrete truthy non-array argument and a
concrete falsy non-array argument. -/
theorem c3_witness :
    wrap { statics := [], proto := [] } (JSArg.other true)
      = (some methodNamesErr, { statics := [], proto := [] })
    ∧ (wrap { statics := [], proto := [] } (JSArg.other false)).1 = none :=
  ⟨((c3_validation_amended { statics := [], proto := [] } (JSArg.other true)).1 (by decide)).1,
    ((c3_validation_amended { statics := [], proto := [] } (JSArg.other false)).2 (by decide)).1⟩

/-- C4: when no methodNames filter is supplied, a candidate callable (an own,
non-accessor, function-typed property) is replaced by a fresh adapter exactly
when its name ends with the Async suffix or its constructor tag is
GeneratorFunction; every other candidate keeps its previous value,
identity-equal.  The adapter is never identity-equal to the original. -/
theorem c4_suffix_or_generator_selection (t : Target)
    (hnd : (getOwnPropertyNames t).Nodup) (q : String) (pd : PropDesc) (f : Fn)
    (hpd : getProp t q = some pd) (hacc : pd.accessor = false)
    (hf : pd.value = Value.func f) :
    getProp (wrapFunctions t none) q =
      (if (strEndsWith q ("Async") || f.ctorName == "GeneratorFunction") = true
        then some { pd with value := Value.func (Fn.coWrapped f) }
        else some pd)
    ∧ Fn.coWrapped f ≠ f := by
  refine ⟨?_, coWrapped_ne f⟩
  obtain ⟨acc, v⟩ := pd
  simp only [] at hacc hf
  subst hacc
  subst hf
  rw [getProp_wrapFunctions t hnd none q, hpd]
  by_cases hs : (strEndsWith q ("Async") || f.ctorName == "GeneratorFunction") = true
  · simp [selB, Value.ctorName, Value.isFunc, wrapValue, hs]
  · simp [selB, Value.ctorName, Value.isFunc, wrapValue, hs]

/-- Witness for C4: in a concrete target the suffix-named plain function is
replaced by an adapter and the unmatched plain function is untouched. -/
theorem c4_witness :
    getProp (wrapFunctions
        [("fooAsync", { accessor := false, value := Value.func (Fn.base ("Function") 1) }),
         ("helper", { accessor := false, value := Value.func (Fn.base ("Function") 2) })]
        none) ("fooAsync")
      = some { accessor := false,
               value := Value.func (Fn.coWrapped (Fn.base ("Function") 1)) }
    ∧ getProp (wrapFunctions
        [("fooAsync", { accessor := false, value := Value.func (Fn.base ("Function") 1) }),
         ("helper", { accessor := false, value := Value.func (Fn.base ("Function") 2) })]
        none) ("helper")
      = some { accessor := false, value := Value.func (Fn.base ("Function") 2) } := by
  have h1 := c4_suffix_or_generator_selection
    [("fooAsync", { accessor := false, value := Value.func (Fn.base ("Function") 1) }),
     ("helper", { accessor := false, value := Value.func (Fn.base ("Function") 2) })]
    (by decide) ("fooAsync")
    { accessor := false, value := Value.func (Fn.base ("Function") 1) }
    (Fn.base ("Function") 1) (by decide) rfl rfl
  have h2 := c4_suffix_or_generator_selection
    [("fooAsync", { accessor := false, value := Value.func (Fn.base ("Function") 1) }),
     ("helper", { accessor := false, value := Value.func (Fn.base ("Function") 2) })]
    (by decide) ("helper")
    { accessor := false, value := Value.func (Fn.base ("Function") 2) }
    (Fn.base ("Function") 2) (by decide) rfl rfl
  constructor
  · rw [h1.1]
    decide
  · rw [h2.1]
    decide

/-- C5: with an explicit methodNames list, membership in the list is the sole
selection criterion for a candidate callable: a listed candidate is replaced
by a fresh adapter whatever its name or kind, and an unlisted candidate keeps
its previous value identity-equal, even when suffix-named or generator
tagged. -/
theorem c5_filter_sole_criterion (t : Target)
    (hnd : (getOwnPropertyNames t).Nodup) (names : List String)
    (q : String) (pd : PropDesc) (f : Fn)
    (hpd : getProp t q = some pd) (hacc : pd.accessor = false)
    (hf : pd.value = Value.func f) :
    getProp (wrapFunctions t (some names)) q =
      (if names.contains q
        then some { pd with value := Value.func (Fn.coWrapped f) }
        else some pd) := by
  obtain ⟨acc, v⟩ := pd
  simp only [] at hacc hf
  subst hacc
  subst hf
  rw [getProp_wrapFunctions t hnd (some names) q, hpd]
  by_cases hc : q ∈ names
  · simp [selB, Value.isFunc, wrapValue, hc]
  · simp [selB, Value.isFunc, wrapValue, hc]

/-- Witness for C5: the plain non-suffix-named foo listed in the filter is
wrapped, while the suffix-named barAsync not in the filter is untouched. -/
theorem c5_witness :
    getProp (wrapFunctions
        [("foo", { accessor := false, value := Value.func (Fn.base ("Function") 1) }),
         ("barAsync", { accessor := false, value := Value.func (Fn.base ("Function") 2) })]
        (some ["foo"])) ("foo")
      = some { accessor := false,
               value := Value.func (Fn.coWrapped (Fn.base ("Function") 1)) }
    ∧ getProp (wrapFunctions
        [("foo", { accessor := false, value := Value.func (Fn.base ("Function") 1) }),
         ("barAsync", { accessor := false, value := Value.func (Fn.base ("Function") 2) })]
        (some ["foo"])) ("barAsync")
      = some { accessor := false, value := Value.func (Fn.base ("Function") 2) } := by
  have h1 := c5_filter_sole_criterion
    [("foo", { accessor := false, value := Value.func (Fn.base ("Function") 1) }),
     ("barAsync", { accessor := false, value := Value.func (Fn.base ("Function") 2) })]
    (by decide) ["foo"] ("foo")
    { accessor := false, value := Value.func (Fn.base ("Function") 1) }
    (Fn.base ("Function") 1) (by decide) rfl rfl
  have h2 := c5_filter_sole_criterion
    [("foo", { accessor := false, value := Value.func (Fn.base ("Function") 1) }),
     ("barAsync", { accessor := false, value := Value.func (Fn.base ("Function") 2) })]
    (by decide) ["foo"] ("barAsync")
    { accessor := false, value := Value.func (Fn.base ("Function") 2) }
    (Fn.base ("Function") 2) (by decide) rfl rfl
  constructor
  · rw [h1]
    decide
  · rw [h2]
    decide

theorem not_candidate_flags (t : Target) (q : String) (pd : PropDesc)
    (hpd : getProp t q = some pd) (hq : q ∉ _actualMethodKeys t) :
    (!pd.accessor && pd.value.isFunc) = false := by
  by_contra hb
  have hb2 : (!pd.accessor && pd.value.isFunc) = true := by
    simpa using hb
  simp only [Bool.and_eq_true, Bool.not_eq_true'] at hb2
  exact hq ((mem_actualMethodKeys t q).mpr ⟨pd, hpd, hb2.1, hb2.2⟩)

/-- C8: classification considers exactly the own, function-typed,
non-accessor properties; every key outside that candidate set keeps its exact
previous property under wrapFunctions and never appears in the mapping built
by getAllFunctions, for any filter.  Inherited properties are outside the
model of the own-property table altogether, mirroring
Object.getOwnPropertyNames. -/
theorem c8_candidate_characterization (t : Target)
    (hnd : (getOwnPropertyNames t).Nodup) (mns : Option (List String)) :
    (∀ q, q ∈ _actualMethodKeys t ↔
      ∃ pd, getProp t q = some pd ∧ pd.accessor = false ∧ pd.value.isFunc = true)
    ∧ (∀ q, q ∉ _actualMethodKeys t → getProp (wrapFunctions t mns) q = getProp t q)
    ∧ (∀ q, q ∉ _actualMethodKeys t → findVal (getAllFunctions t mns) q = none) := by
  refine ⟨fun q => mem_actualMethodKeys t q, ?_, ?_⟩
  · intro q hq
    rw [getProp_wrapFunctions t hnd mns q]
    cases hpd : getProp t q with
    | none => rfl
    | some pd => simp [not_candidate_flags t q pd hpd hq]
  · intro q hq
    rw [findVal_getAllFunctions t hnd mns q]
    cases hpd : getProp t q with
    | none => rfl
    | some pd => simp [not_candidate_flags t q pd hpd hq]

/-- Witness for C8: in a concrete target a non-function data property and an
accessor property are untouched by wrapFunctions and absent from the
getAllFunctions mapping. -/
theorem c8_witness :
    (getProp (wrapFunctions
        [("num", { accessor := false, value := Value.data 42 }),
         ("computed", { accessor := true, value := Value.func (Fn.base ("Function") 9) })]
        none) ("num")
      = getProp
        [("num", { accessor := false, value := Value.data 42 }),
         ("computed", { accessor := true, value := Value.func (Fn.base ("Function") 9) })]
        ("num"))
    ∧ findVal (getAllFunctions
        [("num", { accessor := false, value := Value.data 42 }),
         ("computed", { accessor := true, value := Value.func (Fn.base ("Function") 9) })]
        none) ("computed") = none := by
  have h := c8_candidate_characterization
    [("num", { accessor := false, value := Value.data 42 }),
     ("computed", { accessor := true, value := Value.func (Fn.base ("Function") 9) })]
    (by decide) none
  exact ⟨h.2.1 ("num") (by decide), h.2.2 ("computed") (by decide)⟩

theorem getAll_unfiltered_spec (t : Target) (hnd : (getOwnPropertyNames t).Nodup) :
    (∀ q pd f, getProp t q = some pd → pd.accessor = false → pd.value = Value.func f →
      findVal (getAllFunctions t none) q =
        (if (q == "constructor") = true then none
         else if (strEndsWith q ("Async") || f.ctorName == "GeneratorFunction") = true
           then some (Value.func (Fn.coWrapped f))
           else some (Value.func f)))
    ∧ (∀ q, getProp t q = none → findVal (getAllFunctions t none) q = none)
    ∧ (∀ q pd, getProp t q = some pd → pd.accessor = true ∨ pd.value.isFunc = false →
        findVal (getAllFunctions t none) q = none) := by
  refine ⟨?_, ?_, ?_⟩
  · intro q pd f hpd hacc hf
    obtain ⟨acc, v⟩ := pd
    simp only [] at hacc hf
    subst hacc
    subst hf
    rw [findVal_getAllFunctions t hnd none q, hpd]
    by_cases hcon : (q == "constructor") = true
    · simp [getAllSpec, Value.isFunc, hcon]
    · by_cases hs : (strEndsWith q ("Async") || f.ctorName == "GeneratorFunction") = true
      · simp [getAllSpec, Value.isFunc, Value.ctorName, wrapValue, hcon, hs]
      · simp [getAllSpec, Value.isFunc, Value.ctorName, wrapValue, hcon, hs]
  · intro q hq
    rw [findVal_getAllFunctions t hnd none q, hq]
  · intro q pd hpd hbad
    rw [findVal_getAllFunctions t hnd none q, hpd]
    have hfalse : (!pd.accessor && pd.value.isFunc) = false := by
      rcases hbad with h1 | h1 <;> simp [h1]
    simp [hfalse]

/-- C7: getStaticMethods and getInstanceMethods build a fresh mapping without
touching the target (in this embedding they are pure functions of the
property table, mirroring the fact that the source getAllFunctions only
reads the target and writes a local object).  The mapping contains every own
function-typed non-accessor non-constructor property: an unmatched callable
appears as the original function reference, a matched one (Async-suffixed or
generator tagged) as a freshly constructed adapter, and a fresh adapter is
never identity-equal to the function it wraps; keys outside the candidate
set do not appear. -/
theorem c7_get_family_spec (k : Klass)
    (hnds : (getOwnPropertyNames k.statics).Nodup)
    (hndp : (getOwnPropertyNames k.proto).Nodup) :
    (∀ q pd f, getProp k.statics q = some pd → pd.accessor = false →
      pd.value = Value.func f →
      findVal (getStaticMethods k) q =
        (if (q == "constructor") = true then none
         else if (strEndsWith q ("Async") || f.ctorName == "GeneratorFunction") = true
           then some (Value.func (Fn.coWrapped f))
           else some (Value.func f)))
    ∧ (∀ q, getProp k.statics q = none → findVal (getStaticMethods k) q = none)
    ∧ (∀ q pd, getProp k.statics q = some pd → pd.accessor = true ∨ pd.value.isFunc = false →
        findVal (getStaticMethods k) q = none)
    ∧ (∀ q pd f, getProp k.proto q = some pd → pd.accessor = false →
      pd.value = Value.func f →
      findVal (getInstanceMethods k) q =
        (if (q == "constructor") = true then none
         else if (strEndsWith q ("Async") || f.ctorName == "GeneratorFunction") = true
           then some (Value.func (Fn.coWrapped f))
           else some (Value.func f)))
    ∧ (∀ q, getProp k.proto q = none → findVal (getInstanceMethods k) q = none)
    ∧ (∀ q pd, getProp k.proto q = some pd → pd.accessor = true ∨ pd.value.isFunc = false →
        findVal (getInstanceMethods k) q = none)
    ∧ (∀ f, Fn.coWrapped f ≠ f) := by
  have hs := getAll_unfiltered_spec k.statics hnds
  have hp := getAll_unfiltered_spec k.proto hndp
  exact ⟨hs.1, hs.2.1, hs.2.2, hp.1, hp.2.1, hp.2.2, coWrapped_ne⟩

/-- Witness for C7: on a concrete class, the static mapping wraps the
suffix-named function, passes the plain function through as the original
reference, and omits the data property. -/
theorem c7_witness :
    findVal (getStaticMethods
        { statics :=
            [("fooAsync", { accessor := false, value := Value.func (Fn.base ("Function") 1) }),
             ("helper", { accessor := false, value := Value.func (Fn.base ("Function") 2) }),
             ("num", { accessor := false, value := Value.data 7 })],
          proto := [] }) ("fooAsync")
      = some (Value.func (Fn.coWrapped (Fn.base ("Function") 1)))
    ∧ findVal (getStaticMethods
        { statics :=
            [("fooAsync", { accessor := false, value := Value.func (Fn.base ("Function") 1) }),
             ("helper", { accessor := false, value := Value.func (Fn.base ("Function") 2) }),
             ("num", { accessor := false, value := Value.data 7 })],
          proto := [] }) ("helper")
      = some (Value.func (Fn.base ("Function") 2))
    ∧ findVal (getStaticMethods
        { statics :=
            [("fooAsync", { accessor := false, value := Value.func (Fn.base ("Function") 1) }),
             ("helper", { accessor := false, value := Value.func (Fn.base ("Function") 2) }),
             ("num", { accessor := false, value := Value.data 7 })],
          proto := [] }) ("num") = none := by
  have h := c7_get_family_spec
    { statics :=
        [("fooAsync", { accessor := false, value := Value.func (Fn.base ("Function") 1) }),
         ("helper", { accessor := false, value := Value.func (Fn.base ("Function") 2) }),
         ("num", { accessor := false, value := Value.data 7 })],
      proto := [] }
    (by decide) (by decide)
  refine ⟨?_, ?_, ?_⟩
  · rw [h.1 ("fooAsync")
      { accessor := false, value := Value.func (Fn.base ("Function") 1) }
      (Fn.base ("Function") 1) (by decide) rfl rfl]
    decide
  · rw [h.1 ("helper")
      { accessor := false, value := Value.func (Fn.base ("Function") 2) }
      (Fn.base ("Function") 2) (by decide) rfl rfl]
    decide
  · exact h.2.2.1 ("num") { accessor := false, value := Value.data 7 } (by decide)
      (Or.inr rfl)

/-- C9: the two conditional branches of the source that wrap a selected
callable, the GeneratorFunction-tagged one and the other one, apply the
identical adaptation, so wrapFunctions and getAllFunctions are extensionally
equal to the simplified variants that apply the single uniform wrapping call
unconditionally to every selected callable. -/
theorem c9_uniform_refinement (t : Target) (mns : Option (List String)) :
    wrapFunctions t mns = wrapFunctionsUniform t mns
    ∧ getAllFunctions t mns = getAllFunctionsUniform t mns := by
  constructor
  · unfold wrapFunctions wrapFunctionsUniform
    have hf : wrapStep mns = wrapStepUniform mns :=
      funext fun tgt => funext fun key => wrapStep_eq_uniform mns tgt key
    rw [hf]
  · unfold getAllFunctions getAllFunctionsUniform
    have hf : getStep t mns = getStepUniform t mns :=
      funext fun fns => funext fun key => getStep_eq_uniform t mns fns key
    rw [hf]

/-- C10: supplying the empty array as methodNames raises no error and wraps
nothing: wrap, wrapStaticMethods and wrapInstanceMethods return the class in
its exact previous state (the empty array is truthy and an array, so
validation passes, and no key is contained in the empty list). -/
theorem c10_empty_filter_noop (k : Klass) :
    wrap k (JSArg.arr []) = (none, k)
    ∧ wrapStaticMethods k (JSArg.arr []) = (none, k)
    ∧ wrapInstanceMethods k (JSArg.arr []) = (none, k) := by
  obtain ⟨s, p⟩ := k
  have hv : validateMethodNames (JSArg.arr []) = none := rfl
  have h1 : wrapStaticMethods ⟨s, p⟩ (JSArg.arr []) = (none, ⟨s, p⟩) := by
    simp [wrapStaticMethods, hv, JSArg.toFilter, wrapFunctions_empty_names]
  have h2 : wrapInstanceMethods ⟨s, p⟩ (JSArg.arr []) = (none, ⟨s, p⟩) := by
    simp [wrapInstanceMethods, hv, JSArg.toFilter, wrapFunctions_empty_names]
  refine ⟨?_, h1, h2⟩
  simp [wrap, hv, h1, h2]

end AsyncClassCo
